import Mathlib

/-!
Verification of the `bean_importers` repository: a shallow embedding of the
descriptor pipeline (string normalisation utilities, amount / date /
payee-narration / transaction-type descriptors) and of the
`BankingImporter.extract` orchestrator, together with theorems settling the
frozen claims about them.

Python strings are modelled as `List Char`; Python `None` cell values as
`Option String` inside a row; exceptions as `Except String`.
-/

instance {ε α : Type} [DecidableEq ε] [DecidableEq α] : DecidableEq (Except ε α) := fun a b =>
  match a, b with
  | Except.ok x, Except.ok y =>
      if h : x = y then isTrue (congrArg Except.ok h)
      else isFalse (fun hc => h (Except.ok.inj hc))
  | Except.error x, Except.error y =>
      if h : x = y then isTrue (congrArg Except.error h)
      else isFalse (fun hc => h (Except.error.inj hc))
  | Except.ok _, Except.error _ => isFalse (fun hc => Except.noConfusion hc)
  | Except.error _, Except.ok _ => isFalse (fun hc => Except.noConfusion hc)

/-- Characters matched by Python's `str.strip()` and by `\s` in `re`
(ASCII fragment, which is all the repository feeds in). -/
def isPySpace (c : Char) : Bool :=
  c = ' ' || c = '\t' || c = '\n' || c = '\r' || c = '\x0b' || c = '\x0c'

/-- Python `str.strip()`: drop leading and trailing whitespace. -/
def pyStrip (l : List Char) : List Char :=
  ((l.dropWhile isPySpace).reverse.dropWhile isPySpace).reverse

/-- Numeric value of a list of decimal digit characters (most significant first),
as used when the cleaned text reaches `Decimal`. -/
def digitsVal (l : List Char) : Nat :=
  l.foldl (fun n c => 10 * n + (c.toNat - '0'.toNat)) 0

/-- Model of `decimal.Decimal(string)` restricted to the shapes reachable from
`convert_text_to_decimal`: an optional leading sign, then digit characters with
at most one dot; at least one digit is required.  Anything else raises
(`decimal.InvalidOperation` in Python), modelled as an error value. -/
def pyDecimal (l : List Char) : Except String ℚ :=
  let sgn : ℤ :=
    match l with
    | c :: _ => if c = '-' then -1 else 1
    | [] => 1
  let rest : List Char :=
    match l with
    | c :: r => if c = '+' || c = '-' then r else l
    | [] => l
  let intPart := rest.takeWhile (fun c => c ≠ '.')
  let dotPart := rest.dropWhile (fun c => c ≠ '.')
  let fracPart := dotPart.drop 1
  if intPart.all Char.isDigit && fracPart.all Char.isDigit
      && !(intPart.isEmpty && fracPart.isEmpty)
      && !(fracPart.contains '.') then
    Except.ok (mkRat (sgn * ((digitsVal intPart : ℤ) * 10 ^ fracPart.length + digitsVal fracPart))
      (10 ^ fracPart.length))
  else
    Except.error "InvalidOperation: invalid literal for Decimal"

/-- `string_utils.convert_text_to_decimal`.  Mirrors the source line by line:
strip; empty string yields zero; a leading `+`/`-` is captured and the rest is
re-stripped; `separators` is the text with digits removed (`re.sub(r"\d", "", text)`);
when it is nonempty, every character of `separators[:-1]` is removed from the
text (`str.replace(sep, "")` removes all its occurrences) and every occurrence
of the final separator character is rewritten to `.`; when `separators` is
empty the local variable `number` is never assigned, so the final
`number = sign + number` raises `UnboundLocalError`. -/
def convert_text_to_decimal (text0 : List Char) : Except String ℚ :=
  let text1 := pyStrip text0
  if text1.isEmpty then Except.ok 0 else
  let sign : List Char :=
    match text1 with
    | c :: _ => if c = '+' || c = '-' then [c] else []
    | [] => []
  let text2 := if sign.isEmpty then text1 else pyStrip (text1.drop 1)
  let separators := text2.filter (fun c => !c.isDigit)
  if separators.isEmpty then
    Except.error "UnboundLocalError: local variable 'number' referenced before assignment"
  else
    let text3 := separators.dropLast.foldl (fun t sep => t.filter (fun c => c ≠ sep)) text2
    let number := text3.map (fun c => if c = separators.getLast! then '.' else c)
    pyDecimal (sign ++ number)

/-- The fixed currency enumeration of `datatypes.Currency`
(the remaining members are commented out in the source). -/
inductive Currency : Type
  | CHF
  | EUR
  | SEK
  | USD
  | GBP
deriving DecidableEq, Repr

/-- `Currency.value` of a member; in this enumeration every member's value
equals its name. -/
def Currency.value : Currency → String
  | Currency.CHF => "CHF"
  | Currency.EUR => "EUR"
  | Currency.SEK => "SEK"
  | Currency.USD => "USD"
  | Currency.GBP => "GBP"

/-- Lookup of a `Currency` member by name, as in Python's `Currency[text]`;
since names and values coincide, `Currency(value)` performs the same lookup. -/
def currencyByName (s : String) : Option Currency :=
  if s = "CHF" then some Currency.CHF
  else if s = "EUR" then some Currency.EUR
  else if s = "SEK" then some Currency.SEK
  else if s = "USD" then some Currency.USD
  else if s = "GBP" then some Currency.GBP
  else none

/-- `string_utils.convert_text_to_currency`: keep only letters, uppercase,
look the cleaned text up in the `Currency` enumeration by name;
an unknown code raises `ValueError`. -/
def convert_text_to_currency (text : List Char) : Except String Currency :=
  let cleaned := String.mk ((text.filter Char.isAlpha).map Char.toUpper)
  match currencyByName cleaned with
  | some c => Except.ok c
  | none => Except.error ("Unknown currency: " ++ cleaned)

/-- `string_utils.clean_text`: `re.sub` removes every character outside
`[a-zA-Z0-9\s]`, then the result is lowercased. -/
def clean_text (text : List Char) : List Char :=
  (text.filter (fun c => c.isAlphanum || isPySpace c)).map Char.toLower

/-- One step of `re.sub(r"\s+", " ", text)`: each maximal run of whitespace
characters is replaced by a single space. -/
def squeezeWs : List Char → List Char
  | [] => []
  | [c] => [if isPySpace c then ' ' else c]
  | a :: b :: rest =>
      if isPySpace a && isPySpace b then squeezeWs (b :: rest)
      else (if isPySpace a then ' ' else a) :: squeezeWs (b :: rest)

/-- `string_utils.reduce_whitespace`: collapse whitespace runs to a single
space, then strip the ends. -/
def reduce_whitespace (text : List Char) : List Char :=
  pyStrip (squeezeWs text)

/-- The part of `text.rsplit(' ', 1)[0]` needed here: if the list contains a
space, the portion strictly before the last space, and `none` otherwise. -/
def rsplitBeforeLastSpace : List Char → Option (List Char)
  | [] => none
  | c :: rest =>
      match rsplitBeforeLastSpace rest with
      | some p => some (c :: p)
      | none => if c = ' ' then some [] else none

/-- `string_utils.shorten_text`: `max_length = -1` means unlimited; other
negative values raise; text within the limit is returned unchanged; otherwise
the first `max_length` characters are kept up to the last space
(`text[:max_length].rsplit(' ', 1)[0]`; the whole slice when it has no space)
and `"..."` is appended. -/
def shorten_text (text : List Char) (max_length : Int) : Except String (List Char) :=
  if max_length < -1 then
    Except.error "max_length cannot be negative except for -1."
  else if max_length = -1 then
    Except.ok text
  else if (text.length : Int) ≤ max_length then
    Except.ok text
  else
    let sliced := text.take max_length.toNat
    let shortened := (rsplitBeforeLastSpace sliced).getD sliced
    Except.ok (shortened ++ "...".toList)

/-- Calendar dates as held by `datetime.date`. -/
structure Date where
  year : Nat
  month : Nat
  day : Nat
deriving DecidableEq, Repr

/-- Strict comparison of dates, lexicographic on (year, month, day),
as Python compares `datetime.date` values. -/
def Date.lt (a b : Date) : Bool :=
  a.year < b.year
    || (a.year = b.year && (a.month < b.month || (a.month = b.month && a.day < b.day)))

/-- Leap-year rule used by the Gregorian calendar (and `datetime`). -/
def isLeapYear (y : Nat) : Bool :=
  y % 4 = 0 && (y % 100 ≠ 0 || y % 400 = 0)

/-- Number of days in a month, as validated by `datetime.date`. -/
def daysInMonth (y m : Nat) : Nat :=
  if m = 2 then (if isLeapYear y then 29 else 28)
  else if m = 4 || m = 6 || m = 9 || m = 11 then 30
  else 31

/-- `date + datetime.timedelta(days=1)` on a valid date. -/
def nextDay (d : Date) : Date :=
  if d.day < daysInMonth d.year d.month then ⟨d.year, d.month, d.day + 1⟩
  else if d.month < 12 then ⟨d.year, d.month + 1, 1⟩
  else ⟨d.year + 1, 1, 1⟩

/-- The two `strptime` format strings the repository configures:
`"%Y-%m-%d"` (the descriptor default) and `"%Y-%m-%d %H:%M:%S"` (Revolut). -/
inductive DateFmt : Type
  | ymd
  | ymdHMS
deriving DecidableEq, Repr

/-- Read exactly `n` digit characters as a number. -/
def readDigits (n : Nat) (l : List Char) : Option (Nat × List Char) :=
  let ds := l.take n
  if ds.length = n && ds.all Char.isDigit then some (digitsVal ds, l.drop n) else none

/-- Read one expected literal character. -/
def readLit (c : Char) (l : List Char) : Option (List Char) :=
  match l with
  | x :: rest => if x = c then some rest else none
  | [] => none

/-- Model of `datetime.strptime(text, fmt).date()` for the two formats used by
the repository, on their fixed-width numeric forms; the field bounds
(month, day against the calendar, hour, minute, second) are validated as
`datetime` does, and any mismatch raises `ValueError`, modelled as `none`. -/
def pyStrptimeDate (fmt : DateFmt) (l : List Char) : Option Date :=
  match readDigits 4 l with
  | none => none
  | some (y, l1) =>
    match readLit '-' l1 with
    | none => none
    | some l2 =>
      match readDigits 2 l2 with
      | none => none
      | some (m, l3) =>
        match readLit '-' l3 with
        | none => none
        | some l4 =>
          match readDigits 2 l4 with
          | none => none
          | some (d, l5) =>
            let valid := 1 ≤ m && m ≤ 12 && 1 ≤ d && d ≤ daysInMonth y m
            match fmt with
            | DateFmt.ymd =>
                if l5.isEmpty && valid then some ⟨y, m, d⟩ else none
            | DateFmt.ymdHMS =>
                match readLit ' ' l5 with
                | none => none
                | some l6 =>
                  match readDigits 2 l6 with
                  | none => none
                  | some (hh, l7) =>
                    match readLit ':' l7 with
                    | none => none
                    | some l8 =>
                      match readDigits 2 l8 with
                      | none => none
                      | some (mm, l9) =>
                        match readLit ':' l9 with
                        | none => none
                        | some l10 =>
                          match readDigits 2 l10 with
                          | none => none
                          | some (ss, l11) =>
                            if l11.isEmpty && valid && hh < 24 && mm < 60 && ss < 60 then
                              some ⟨y, m, d⟩
                            else none

/-- The fixed transaction taxonomy of `datatypes.TransactionType`. -/
inductive TransactionType : Type
  | transfer
  | exchange
  | skip
deriving DecidableEq, Repr

/-- A beancount `Amount`: a decimal number plus the currency value string. -/
structure Amount where
  number : ℚ
  currency : String
deriving DecidableEq, Repr

/-- One row of a source file (`Mapping[str, str]`): an association list from
column name to cell value; a `none` value models a Python `None` cell. -/
def Row : Type := List (String × Option String)

/-- Python `key in mapping` / `mapping[key]` combined: `none` when the key is
absent. -/
def Row.cell (row : Row) (key : String) : Option (Option String) :=
  List.lookup key row

/-- The `_require_keys` helper shared by the descriptor modules: the first
missing key raises `KeyError`. -/
def require_keys (row : Row) : List String → Except String Unit
  | [] => Except.ok ()
  | k :: ks =>
      match Row.cell row k with
      | some _ => require_keys row ks
      | none => Except.error ("KeyError: Key '" ++ k ++ "' not found in text entry")

/-- Applying a `str` operation to a cell value: a `None` value raises
`TypeError`/`AttributeError` in Python, modelled as an error. -/
def cellStr (v : Option String) : Except String (List Char) :=
  match v with
  | some s => Except.ok s.toList
  | none => Except.error "TypeError: expected a str cell, got None"

/-- `descriptors.date.FromDate.__call__`: require the date key, parse the cell
with `strptime` (a parse failure raises `ValueError`), return the date.
The class has exactly the fields `date` and `date_format`: its generated
constructor accepts no other keyword (see the claims about the `empty_date`
sentinel). -/
def FromDate (date : String) (date_format : DateFmt) (row : Row) : Except String Date := do
  require_keys row [date]
  let raw ← cellStr ((Row.cell row date).getD none)
  match pyStrptimeDate date_format raw with
  | some d => Except.ok d
  | none => Except.error ("Invalid date format for '" ++ date ++ "'")

/-- `descriptors.date.FromPostingTransactionDate.__call__`: require both keys,
parse both cells, raise when the posting date is later than the transaction
date, otherwise return the pair. -/
def FromPostingTransactionDate (posting_date transaction_date : String) (date_format : DateFmt)
    (row : Row) : Except String (Date × Date) := do
  require_keys row [posting_date, transaction_date]
  let rawP ← cellStr ((Row.cell row posting_date).getD none)
  let rawT ← cellStr ((Row.cell row transaction_date).getD none)
  match pyStrptimeDate date_format rawP, pyStrptimeDate date_format rawT with
  | some pd, some td =>
      if Date.lt td pd then
        Except.error "Posting date must be before Transaction date"
      else
        Except.ok (pd, td)
  | _, _ =>
      Except.error ("Invalid date format for '" ++ posting_date ++ "' or '"
        ++ transaction_date ++ "'")

/-- `descriptors.amount.FromAmount.__call__`: require both keys, convert the
amount cell to a decimal and the currency cell to a currency member, and
return the `Amount` built from them. -/
def FromAmount (amount_key currency_key : String) (row : Row) : Except String Amount := do
  require_keys row [amount_key, currency_key]
  let rawA ← cellStr ((Row.cell row amount_key).getD none)
  let amount_value ← convert_text_to_decimal rawA
  let rawC ← cellStr ((Row.cell row currency_key).getD none)
  let currency_value ← convert_text_to_currency rawC
  Except.ok ⟨amount_value, currency_value.value⟩

/-- `descriptors.amount.FromDepositWithdraw.__call__`: require the three keys,
convert both amount cells and the currency; exactly one of the two values must
be nonzero and is returned as is, otherwise `ValueError` is raised. -/
def FromDepositWithdraw (deposit_key withdraw_key currency_key : String) (row : Row) :
    Except String Amount := do
  require_keys row [deposit_key, withdraw_key, currency_key]
  let rawD ← cellStr ((Row.cell row deposit_key).getD none)
  let deposit_value ← convert_text_to_decimal rawD
  let rawW ← cellStr ((Row.cell row withdraw_key).getD none)
  let withdrawal_value ← convert_text_to_decimal rawW
  let rawC ← cellStr ((Row.cell row currency_key).getD none)
  let currency_value ← convert_text_to_currency rawC
  if deposit_value ≠ 0 && withdrawal_value = 0 then
    Except.ok ⟨deposit_value, currency_value.value⟩
  else if deposit_value = 0 && withdrawal_value ≠ 0 then
    Except.ok ⟨withdrawal_value, currency_value.value⟩
  else
    Except.error "Deposit and withdrawal cannot both be non-zero"

/-- `descriptors.amount.FromDepositWithdrawWithCurrency.__call__`: as
`FromDepositWithdraw` but with a fixed `Currency` member instead of a
currency column. -/
def FromDepositWithdrawWithCurrency (deposit_key withdraw_key : String) (currency : Currency)
    (row : Row) : Except String Amount := do
  require_keys row [deposit_key, withdraw_key]
  let rawD ← cellStr ((Row.cell row deposit_key).getD none)
  let deposit_value ← convert_text_to_decimal rawD
  let rawW ← cellStr ((Row.cell row withdraw_key).getD none)
  let withdrawal_value ← convert_text_to_decimal rawW
  if deposit_value ≠ 0 && withdrawal_value = 0 then
    Except.ok ⟨deposit_value, currency.value⟩
  else if deposit_value = 0 && withdrawal_value ≠ 0 then
    Except.ok ⟨withdrawal_value, currency.value⟩
  else
    Except.error "Deposit and withdrawal cannot both be non-zero"

/-- `descriptors.transaction_type.FromTransactionType.__call__`: require the
type key, walk the mapping in insertion order and return the first member
whose label set contains the raw cell value; no match raises `ValueError`.
A `None` cell is simply not contained in any label list. -/
def FromTransactionType (transaction_type_key : String)
    (transaction_type_mapping : List (TransactionType × List String)) (row : Row) :
    Except String TransactionType := do
  require_keys row [transaction_type_key]
  let raw := (Row.cell row transaction_type_key).getD none
  match transaction_type_mapping.find? (fun p =>
      match raw with
      | some s => p.2.contains s
      | none => false) with
  | some p => Except.ok p.1
  | none => Except.error "Transaction type not recognized."

/-- `descriptors.payee_narration.FromPayeeNarration.__call__`: require both
keys; a `None` cell is replaced by the empty string (null-guard); each field
is cleaned, whitespace-reduced and shortened to its configured maximum
length. -/
def FromPayeeNarration (payee_key narration_key : String)
    (max_payee_length max_narration_length : Int) (row : Row) :
    Except String (Option (List Char) × Option (List Char)) := do
  require_keys row [payee_key, narration_key]
  let payee_text := ((Row.cell row payee_key).getD none).getD ""
  let narration_text := ((Row.cell row narration_key).getD none).getD ""
  let payee_value ← shorten_text (reduce_whitespace (clean_text payee_text.toList))
    max_payee_length
  let narration_value ← shorten_text (reduce_whitespace (clean_text narration_text.toList))
    max_narration_length
  Except.ok (some payee_value, some narration_value)

/-- `descriptors.payee_narration.FromPayee.__call__`: require the payee key;
the body then evaluates
`shorten_text(reduce_whitespace(clean_text(text_entry[payee_key]), max_payee_length))`,
which passes `max_payee_length` as a second positional argument to
`reduce_whitespace` — a function of one argument — so every call that gets
past the key check raises `TypeError` (when the cell is `None`, `clean_text`
raises `TypeError` first); there is also no null-guard. -/
def FromPayee (payee_key : String) (max_payee_length : Int) (row : Row) :
    Except String (Option (List Char) × Option (List Char)) := do
  require_keys row [payee_key]
  match (Row.cell row payee_key).getD none with
  | none => Except.error "TypeError: expected string or bytes-like object"
  | some _ =>
      Except.error
        "TypeError: reduce_whitespace() takes 1 positional argument but 2 were given"

/-- `descriptors.payee_narration.FromNarration.__call__`: require the
narration key; the raw cell is passed to `clean_text` with no null-guard
(a `None` cell raises `TypeError`), then whitespace-reduced and shortened to
the configured maximum length; the payee slot of the result is `None`. -/
def FromNarration (narration_key : String) (max_narration_length : Int) (row : Row) :
    Except String (Option (List Char) × Option (List Char)) := do
  require_keys row [narration_key]
  let raw ← cellStr ((Row.cell row narration_key).getD none)
  let narration_value ← shorten_text (reduce_whitespace (clean_text raw)) max_narration_length
  Except.ok (none, some narration_value)

/-- One posting of a transaction (`data.Posting`); the cost, price, flag and
meta slots are all passed as `None` by the importer and are omitted. -/
structure Posting where
  account : String
  units : Amount
deriving DecidableEq, Repr

/-- Entry metadata from `data.new_metadata(filepath, lineno)`. -/
structure Meta where
  filepath : String
  lineno : Nat
deriving DecidableEq, Repr

/-- A beancount entry as produced by `BankingImporter.extract`: a transaction
(whose flag, tags and links are the constants `FLAG_OKAY`, `EMPTY_SET`,
`EMPTY_SET` and are omitted) or a balance assertion. -/
inductive Entry : Type
  | txn (meta : Meta) (date : Date) (payee : Option (List Char))
      (narration : Option (List Char)) (postings : List Posting)
  | balance (meta : Meta) (date : Date) (account : String) (amount : Amount)
deriving DecidableEq, Repr

/-- Whether an entry is a transaction. -/
def Entry.isTxn : Entry → Bool
  | Entry.txn .. => true
  | Entry.balance .. => false

/-- The configuration slots of a `BankingImporter` used by `extract`; each
row descriptor is any callable of the right shape (the classes above are
plugged in, but the protocol admits any function).  `get_date` yields an
optional date so that a falsy (`None`) date — which the orchestrator's
`if not date` test handles — is representable. -/
structure ImporterCfg where
  root_account : String
  fee_account : Option String
  get_date : Row → Except String (Option Date)
  get_payee_narration : Row → Except String (Option (List Char) × Option (List Char))
  get_transaction_type : Row → Except String TransactionType
  get_root_amount : Row → Except String Amount
  get_fee_amount : Option (Row → Except String Amount)
  get_balance : Option (Row → Except String Amount)

/-- The mutable accumulators of one `extract` call: the entry list and the
per-currency balance dictionary (`defaultdict(list)`, insertion-ordered,
modelled as an association list of groups). -/
structure ExtractState where
  entries : List Entry
  balances : List (Currency × List Entry)
deriving DecidableEq, Repr

/-- `balances[currency].append(entry)` on a `defaultdict(list)`: append to the
existing group, or add a new group at the end on first use of the key. -/
def addBalance : List (Currency × List Entry) → Currency → Entry → List (Currency × List Entry)
  | [], c, e => [(c, [e])]
  | (c', g) :: rest, c, e =>
      if c' = c then (c', g ++ [e]) :: rest
      else (c', g) :: addBalance rest c e

/-- `for currency, balances in balances.items(): entries.append(balances[-1])`:
the last element of each group, in key-insertion order (groups are nonempty by
construction; an empty group contributes nothing, where Python would raise on
`[-1]`). -/
def lastBalances (balances : List (Currency × List Entry)) : List Entry :=
  balances.filterMap (fun p => p.2.getLast?)

/-- The fee block of the row loop: `if self.get_fee_amount and self.fee_account:`
(an empty fee-account string is falsy in Python), then
`fee = self.get_fee_amount(row)` followed by the construction of a
`data.Posting` that is immediately discarded — the source line ends in a bare
tuple expression that is never appended to `postings`. -/
def extractFeeStep (cfg : ImporterCfg) (row : Row) : Except String Unit :=
  match cfg.get_fee_amount, cfg.fee_account with
  | some get_fee, some fee_account =>
      if fee_account ≠ "" then
        match get_fee row with
        | Except.error e => Except.error e
        | Except.ok fee =>
            let _discarded_fee_posting : Posting := ⟨fee_account, fee⟩
            Except.ok ()
      else Except.ok ()
  | _, _ => Except.ok ()

/-- The body of `BankingImporter.extract`'s row loop.  The four row
descriptors are invoked first, in source order; only then does
`if not date: continue` skip the row.  The posting list holds the single root
posting; the fee block (see `extractFeeStep`) never extends it.  When a
balance descriptor is configured, the balance amount is extracted; a beancount
`Amount.__bool__` returns `self.number != ZERO`, so `if balance:` holds
exactly when the extracted amount is nonzero: such a row appends a candidate
dated one day later under `Currency(balance.currency)` (an unknown currency
value raises `ValueError`), while a zero-amount balance is falsy and the row
adds no candidate. -/
def extractRow (cfg : ImporterCfg) (filepath : String) (lineno : Nat) (row : Row)
    (st : ExtractState) : Except String ExtractState :=
  let meta : Meta := ⟨filepath, lineno⟩
  match cfg.get_date row with
  | Except.error e => Except.error e
  | Except.ok date? =>
  match cfg.get_payee_narration row with
  | Except.error e => Except.error e
  | Except.ok pn =>
  match cfg.get_root_amount row with
  | Except.error e => Except.error e
  | Except.ok amount =>
  match cfg.get_transaction_type row with
  | Except.error e => Except.error e
  | Except.ok _transaction_type =>
  match date? with
  | none => Except.ok st
  | some date =>
    let postings : List Posting := [⟨cfg.root_account, amount⟩]
    match extractFeeStep cfg row with
    | Except.error e => Except.error e
    | Except.ok () =>
      let txn := Entry.txn meta date pn.1 pn.2 postings
      let st1 : ExtractState := { st with entries := st.entries ++ [txn] }
      match cfg.get_balance with
      | none => Except.ok st1
      | some get_balance =>
          match get_balance row with
          | Except.error e => Except.error e
          | Except.ok balance =>
              if balance.number ≠ 0 then
                let bdate := nextDay date
                match currencyByName balance.currency with
                | none =>
                    Except.error ("ValueError: " ++ balance.currency ++ " is not a valid Currency")
                | some cur =>
                    Except.ok { st1 with
                      balances := addBalance st1.balances cur
                        (Entry.balance meta bdate cfg.root_account balance) }
              else Except.ok st1

/-- The enumerated row loop of `extract`, threading the accumulators. -/
def extractGo (cfg : ImporterCfg) (filepath : String) :
    Nat → List Row → ExtractState → Except String ExtractState
  | _, [], st => Except.ok st
  | lineno, row :: rest, st => do
      let st' ← extractRow cfg filepath lineno row st
      extractGo cfg filepath (lineno + 1) rest st'

/-- `BankingImporter.extract`: run the row loop over the rows yielded by the
file descriptor's reader (the file-reading layer is external, so the rows are
taken as input); if no transactions were produced, return the empty list;
otherwise append the last accumulated balance of each currency after all
transactions.  The `existing` argument is accepted and ignored, as in the
source. -/
def extract (cfg : ImporterCfg) (filepath : String) (_existing : List Entry) (rows : List Row) :
    Except String (List Entry) := do
  let st ← extractGo cfg filepath 0 rows ⟨[], []⟩
  if st.entries.isEmpty then
    Except.ok []
  else
    Except.ok (st.entries ++ lastBalances st.balances)

/-- The importer configuration assembled by `RevolutImporter.__init__` for a
given root and fee account: `FromDate` on `Completed Date` with format
`%Y-%m-%d %H:%M:%S`, `FromNarration` on `Description` with maximum length 40,
`FromTransactionType` on `Type`, and `FromAmount` on `Amount`/`Fee`/`Balance`
against the `Currency` column.  The source also passes `empty_date=""` to
`FromDate`, a keyword the generated `FromDate.__init__` does not accept, so
the Python constructor raises `TypeError` before this configuration can be
built — see the claims on the empty-date sentinel; this value is the wiring
minus that rejected argument. -/
def revolutCfg (root_account fee_account : String) : ImporterCfg where
  root_account := root_account
  fee_account := some fee_account
  get_date := fun row => (FromDate "Completed Date" DateFmt.ymdHMS row).map some
  get_payee_narration := FromNarration "Description" 40
  get_transaction_type := FromTransactionType "Type"
    [(TransactionType.exchange, ["EXCHANGE"]),
     (TransactionType.transfer, ["TOPUP", "CARD_PAYMENT", "TRANSFER"]),
     (TransactionType.skip, [])]
  get_root_amount := FromAmount "Amount" "Currency"
  get_fee_amount := some (FromAmount "Fee" "Currency")
  get_balance := some (FromAmount "Balance" "Currency")

/-- The single Revolut-shaped row of the end-to-end scenario. -/
def revolutScenarioRow : Row :=
  [("Type", some "TOPUP"),
   ("Completed Date", some "2024-08-01 10:00:00"),
   ("Description", some "Top-Up by card"),
   ("Amount", some "12.34"),
   ("Fee", some "0.00"),
   ("Currency", some "EUR"),
   ("Balance", some "100.00")]

/-- Specification-side view of one row, written from the claim's words: a row
yields a transaction exactly when its four descriptor extractions succeed and
the date is present, and the transaction carries the single root posting at
the extracted amount. -/
def specTxnOfRow (cfg : ImporterCfg) (filepath : String) (lineno : Nat) (row : Row) :
    Option Entry :=
  match cfg.get_date row, cfg.get_payee_narration row, cfg.get_root_amount row,
      cfg.get_transaction_type row with
  | Except.ok (some date), Except.ok pn, Except.ok amount, Except.ok _ =>
      some (Entry.txn ⟨filepath, lineno⟩ date pn.1 pn.2 [⟨cfg.root_account, amount⟩])
  | _, _, _, _ => none

/-- Specification-side balance candidate of one row, written from the claim's
words: a row that yields a transaction and whose configured balance descriptor
succeeds with a truthy amount (beancount `Amount.__bool__` is
`number != ZERO`, so nonzero) contributes, under the balance's currency, a
balance assertion for the root account dated one day after the row's
extracted date; a zero-amount balance accumulates nothing. -/
def specCandOfRow (cfg : ImporterCfg) (filepath : String) (lineno : Nat) (row : Row) :
    Option (Currency × Entry) :=
  match specTxnOfRow cfg filepath lineno row with
  | some (Entry.txn meta date _ _ _) =>
      match cfg.get_balance with
      | none => none
      | some get_balance =>
          match get_balance row with
          | Except.ok balance =>
              if balance.number ≠ 0 then
                match currencyByName balance.currency with
                | some cur =>
                    some (cur, Entry.balance meta (nextDay date) cfg.root_account balance)
                | none => none
              else none
          | Except.error _ => none
  | _ => none

/-- The transactions of a file, row by row from a starting line number. -/
def specTxns (cfg : ImporterCfg) (filepath : String) : Nat → List Row → List Entry
  | _, [] => []
  | lineno, row :: rest =>
      (specTxnOfRow cfg filepath lineno row).toList ++ specTxns cfg filepath (lineno + 1) rest

/-- The balance candidates of a file in row order, from a starting line
number. -/
def specCands (cfg : ImporterCfg) (filepath : String) : Nat → List Row → List (Currency × Entry)
  | _, [] => []
  | lineno, row :: rest =>
      (specCandOfRow cfg filepath lineno row).toList ++ specCands cfg filepath (lineno + 1) rest

/-- The currencies of a candidate list in order of first appearance. -/
def firstSeen : List Currency → List Currency
  | [] => []
  | c :: cs => c :: (firstSeen cs).filter (fun c' => c' ≠ c)

/-- Specification-side balance assertions, written from the claim's words:
for each currency that accumulated candidates, in order of first appearance,
exactly the last accumulated candidate in row order. -/
def specBalances (cands : List (Currency × Entry)) : List Entry :=
  (firstSeen (cands.map Prod.fst)).filterMap
    (fun c => ((cands.filter (fun p => p.1 = c)).getLast?).map Prod.snd)

/-- Grouping of a flat candidate list into the shape of the insertion-ordered
`defaultdict(list)`: one group per currency in order of first appearance,
each holding that currency's candidates in order. -/
def groupOf : List (Currency × Entry) → List (Currency × List Entry)
  | [] => []
  | (c, e) :: rest =>
      (c, e :: (rest.filter (fun p => p.1 = c)).map Prod.snd) ::
        groupOf (rest.filter (fun p => p.1 ≠ c))
termination_by l => l.length
decreasing_by
  simp only [List.length_cons]
  exact Nat.lt_succ_of_le (List.length_filter_le _ _)

/-- A configuration whose date descriptor reports a falsy (absent) date on
every row, used to exercise the orchestrator's `if not date: continue` path;
the other descriptors are arbitrary callables, as the protocol allows. -/
def absentDateCfg : ImporterCfg where
  root_account := "Assets:Main"
  fee_account := none
  get_date := fun _ => Except.ok none
  get_payee_narration := fun _ => Except.ok (none, none)
  get_transaction_type := fun _ => Except.ok TransactionType.transfer
  get_root_amount := fun _ => Except.ok ⟨1, "EUR"⟩
  get_fee_amount := none
  get_balance := none

/-- A configuration with a fee descriptor that always fails, used to show the
row loop does invoke the fee extraction. -/
def feeFailCfg : ImporterCfg where
  root_account := "Assets:Main"
  fee_account := some "Expenses:Fee"
  get_date := fun _ => Except.ok (some ⟨2024, 8, 1⟩)
  get_payee_narration := fun _ => Except.ok (none, none)
  get_transaction_type := fun _ => Except.ok TransactionType.transfer
  get_root_amount := fun _ => Except.ok ⟨1, "EUR"⟩
  get_fee_amount := some (fun _ => Except.error "fee descriptor failed")
  get_balance := none

theorem exbind_ok {α β : Type} (a : α) (f : α → Except String β) :
    (Except.ok a >>= f) = f a := rfl

theorem exbind_error {α β : Type} (e : String) (f : α → Except String β) :
    ((Except.error e : Except String α) >>= f) = Except.error e := rfl

theorem dropWhile_eq_self_of {p : Char → Bool} :
    ∀ l : List Char, (∀ x ∈ l, p x = false) → l.dropWhile p = l := by
  intro l h
  cases l with
  | nil => rfl
  | cons a t =>
      rw [List.dropWhile_cons]
      simp [h a (List.mem_cons_self a t)]

theorem pyStrip_eq_self (l : List Char) (h : ∀ x ∈ l, isPySpace x = false) :
    pyStrip l = l := by
  unfold pyStrip
  rw [dropWhile_eq_self_of l h, dropWhile_eq_self_of, List.reverse_reverse]
  intro x hx
  exact h x (by simpa using hx)

theorem foldl_digitsVal (b : List Char) :
    ∀ n : Nat, b.foldl (fun n c => 10 * n + (c.toNat - '0'.toNat)) n
      = n * 10 ^ b.length + digitsVal b := by
  induction b with
  | nil => intro n; simp [digitsVal]
  | cons c t ih =>
      intro n
      have hc : digitsVal (c :: t)
          = (c.toNat - '0'.toNat) * 10 ^ t.length + digitsVal t := by
        rw [digitsVal, List.foldl_cons, ih]
        simp
      rw [List.foldl_cons, ih, hc, List.length_cons]
      ring

theorem digitsVal_append (a b : List Char) :
    digitsVal (a ++ b) = digitsVal a * 10 ^ b.length + digitsVal b := by
  rw [digitsVal, List.foldl_append]
  exact foldl_digitsVal b _

theorem rsplit_some_spec :
    ∀ (l p : List Char), rsplitBeforeLastSpace l = some p →
      p.length < l.length ∧ l.get? p.length = some ' ' := by
  intro l
  induction l with
  | nil => intro p h; cases h
  | cons c rest ih =>
      intro p h
      rw [rsplitBeforeLastSpace] at h
      cases hr : rsplitBeforeLastSpace rest with
      | some q =>
          rw [hr] at h
          cases h
          have := ih q hr
          exact ⟨Nat.succ_lt_succ this.1, this.2⟩
      | none =>
          rw [hr] at h
          by_cases hc : c = ' '
          · simp [hc] at h
            subst h
            simp [hc]
          · simp [hc] at h

/-- C4: the claim says `FromDate` accepts an optional empty-date sentinel
(default `""`) and returns an absent date when the raw cell equals it.  The
source class has only the fields `date` and `date_format` — its generated
constructor rejects the `empty_date` keyword that `RevolutImporter.__init__`
passes — and on an empty date cell it raises `ValueError` from `strptime`
instead of returning an absent date, so no row-level soft skip exists at
all. -/
theorem fromDate_no_empty_sentinel :
    FromDate "Completed Date" DateFmt.ymdHMS [("Completed Date", some "")]
      = Except.error "Invalid date format for 'Completed Date'"
    ∧ FromDate "Date" DateFmt.ymd [("Date", some "")]
      = Except.error "Invalid date format for 'Date'" := by
  constructor
  · decide
  · decide

/-- C7: with the deposit, withdrawal and currency keys present and their cells
converting successfully, `FromDepositWithdraw` returns the unique nonzero
value signed as is (no sign flip on the withdrawal) with the resolved
currency, and raises when both values are nonzero or both are zero. -/
theorem fromDepositWithdraw_exclusive (deposit_key withdraw_key currency_key : String)
    (row : Row) (sd sw sc : String) (d w : ℚ) (cu : Currency)
    (hkd : Row.cell row deposit_key = some (some sd))
    (hkw : Row.cell row withdraw_key = some (some sw))
    (hkc : Row.cell row currency_key = some (some sc))
    (hvd : convert_text_to_decimal sd.toList = Except.ok d)
    (hvw : convert_text_to_decimal sw.toList = Except.ok w)
    (hvc : convert_text_to_currency sc.toList = Except.ok cu) :
    (d ≠ 0 → w = 0 →
      FromDepositWithdraw deposit_key withdraw_key currency_key row = Except.ok ⟨d, cu.value⟩)
    ∧ (d = 0 → w ≠ 0 →
      FromDepositWithdraw deposit_key withdraw_key currency_key row = Except.ok ⟨w, cu.value⟩)
    ∧ ((d ≠ 0 ∧ w ≠ 0) ∨ (d = 0 ∧ w = 0) →
      FromDepositWithdraw deposit_key withdraw_key currency_key row
        = Except.error "Deposit and withdrawal cannot both be non-zero") := by
  have hvd' : convert_text_to_decimal sd.data = Except.ok d := hvd
  have hvw' : convert_text_to_decimal sw.data = Except.ok w := hvw
  have hvc' : convert_text_to_currency sc.data = Except.ok cu := hvc
  refine ⟨?_, ?_, ?_⟩
  · intro h1 h2
    simp [FromDepositWithdraw, require_keys, hkd, hkw, hkc, cellStr, hvd', hvw', hvc',
      exbind_ok, h1, h2]
  · intro h1 h2
    simp [FromDepositWithdraw, require_keys, hkd, hkw, hkc, cellStr, hvd', hvw', hvc',
      exbind_ok, h1, h2]
  · rintro (⟨h1, h2⟩ | ⟨h1, h2⟩) <;>
      simp [FromDepositWithdraw, require_keys, hkd, hkw, hkc, cellStr, hvd', hvw', hvc',
        exbind_ok, h1, h2]

theorem fromDepositWithdraw_exclusive_witness :
    (mkRat 1234 100 ≠ (0 : ℚ)
      ∧ convert_text_to_decimal "".toList = Except.ok 0)
    ∧ FromDepositWithdraw "Deposit" "Withdrawal" "Curr"
        [("Deposit", some "12.34"), ("Withdrawal", some ""), ("Curr", some "EUR")]
      = Except.ok ⟨mkRat 1234 100, "EUR"⟩ :=
  ⟨⟨by decide, by decide⟩,
    (fromDepositWithdraw_exclusive "Deposit" "Withdrawal" "Curr"
      [("Deposit", some "12.34"), ("Withdrawal", some ""), ("Curr", some "EUR")]
      "12.34" "" "EUR" (mkRat 1234 100) 0 Currency.EUR
      rfl rfl rfl (by decide) (by decide) (by decide)).1 (by decide) rfl⟩

/-- C8: with both date keys present and both cells parsing under the
configured format, `FromPostingTransactionDate` returns the
(posting, transaction) pair whenever the posting date is equal to or earlier
than the transaction date, and raises whenever the posting date is later. -/
theorem fromPostingTransactionDate_order (posting_key transaction_key : String) (fmt : DateFmt)
    (row : Row) (sp st : String) (pd td : Date)
    (hkp : Row.cell row posting_key = some (some sp))
    (hkt : Row.cell row transaction_key = some (some st))
    (hpp : pyStrptimeDate fmt sp.toList = some pd)
    (hpt : pyStrptimeDate fmt st.toList = some td) :
    (Date.lt td pd = false →
      FromPostingTransactionDate posting_key transaction_key fmt row = Except.ok (pd, td))
    ∧ (Date.lt td pd = true →
      FromPostingTransactionDate posting_key transaction_key fmt row
        = Except.error "Posting date must be before Transaction date") := by
  have hpp' : pyStrptimeDate fmt sp.data = some pd := hpp
  have hpt' : pyStrptimeDate fmt st.data = some td := hpt
  constructor
  · intro h
    simp [FromPostingTransactionDate, require_keys, hkp, hkt, cellStr, exbind_ok, hpp', hpt', h]
  · intro h
    simp [FromPostingTransactionDate, require_keys, hkp, hkt, cellStr, exbind_ok, hpp', hpt', h]

theorem fromPostingTransactionDate_order_witness :
    Date.lt ⟨2024, 8, 2⟩ ⟨2024, 8, 1⟩ = false
    ∧ FromPostingTransactionDate "P" "T" DateFmt.ymd
        [("P", some "2024-08-01"), ("T", some "2024-08-02")]
      = Except.ok (⟨2024, 8, 1⟩, ⟨2024, 8, 2⟩) :=
  ⟨by decide,
    (fromPostingTransactionDate_order "P" "T" DateFmt.ymd
      [("P", some "2024-08-01"), ("T", some "2024-08-02")]
      "2024-08-01" "2024-08-02" ⟨2024, 8, 1⟩ ⟨2024, 8, 2⟩
      rfl rfl (by decide) (by decide)).1 (by decide)⟩

/-- C6 (counterexample): the claim says `shorten_text` never splits inside a
word — there is whitespace immediately after the truncation point, or the text
comes back unshortened.  On `shorten_text "abcdef" 3` the code returns
`"abc..."`: the result is shortened and the original character after the
truncation point is `'d'`, not whitespace, because
`text[:max_length].rsplit(' ', 1)[0]` keeps the whole slice when it contains
no space. -/
theorem shorten_text_claim_counterexample :
    shorten_text "abcdef".toList 3 = Except.ok ("abc".toList ++ "...".toList)
    ∧ "abc".toList ++ "...".toList ≠ "abcdef".toList
    ∧ "abcdef".toList.get? ("abc".toList.length) = some 'd'
    ∧ 'd' ≠ ' ' := by
  refine ⟨by decide, by decide, by decide, by decide⟩

/-- C6 (amended): `shorten_text s (-1) = s`; `n < -1` raises; for `n ≥ 0` a
successful result is either the unchanged text (when it fits), or a kept
portion of at most `n` characters followed by the ellipsis marker, where
either a space stands immediately after the truncation point in the original
or the kept portion is exactly the first `n` characters (which can split a
word when that slice contains no space). -/
theorem shorten_text_truncation_spec (text : List Char) (n : Int) :
    shorten_text text (-1) = Except.ok text
    ∧ (n < -1 → shorten_text text n = Except.error "max_length cannot be negative except for -1.")
    ∧ (0 ≤ n → ∀ r, shorten_text text n = Except.ok r →
        r = text ∨
        ∃ p, r = p ++ "...".toList ∧ (p.length : Int) ≤ n ∧
          (text.get? p.length = some ' ' ∨ p = text.take n.toNat)) := by
  refine ⟨by simp [shorten_text], ?_, ?_⟩
  · intro h
    rw [shorten_text]
    simp only [if_pos h]
  · intro hn r hr
    rw [shorten_text] at hr
    rw [if_neg (by omega), if_neg (by omega)] at hr
    by_cases hlen : (text.length : Int) ≤ n
    · rw [if_pos hlen] at hr
      exact Or.inl (Except.ok.inj hr).symm
    · rw [if_neg hlen] at hr
      simp only [] at hr
      right
      cases hs : rsplitBeforeLastSpace (text.take n.toNat) with
      | some p =>
          refine ⟨p, ?_, ?_, ?_⟩
          · rw [hs] at hr
            simp only [Option.getD] at hr
            exact (Except.ok.inj hr).symm
          · have h1 := (rsplit_some_spec _ p hs).1
            have h2 : (text.take n.toNat).length ≤ n.toNat := by
              simp [List.length_take]
            have : p.length < n.toNat := Nat.lt_of_lt_of_le h1 h2
            omega
          · left
            have h1 := (rsplit_some_spec _ p hs).1
            have h2 := (rsplit_some_spec _ p hs).2
            have hlt : p.length < n.toNat := by
              have : (text.take n.toNat).length ≤ n.toNat := by simp [List.length_take]
              omega
            rw [← h2]
            exact (List.get?_take hlt).symm
      | none =>
          rw [hs] at hr
          simp only [Option.getD] at hr
          exact ⟨text.take n.toNat, (Except.ok.inj hr).symm, by simp [List.length_take]; omega,
            Or.inr rfl⟩

theorem shorten_text_truncation_spec_witness :
    (0 : Int) ≤ 4
    ∧ ("ab...".toList = "ab cd".toList
        ∨ ∃ p, "ab...".toList = p ++ "...".toList ∧ (p.length : Int) ≤ 4
            ∧ ("ab cd".toList.get? p.length = some ' '
                ∨ p = "ab cd".toList.take (4 : Int).toNat)) :=
  ⟨by decide,
    (shorten_text_truncation_spec "ab cd".toList 4).2.2 (by decide) "ab...".toList (by decide)⟩

/-- C3: the extraction pipeline that `RevolutImporter` wires together, run on
the Revolut-shaped scenario row, yields exactly one transaction dated
2024-08-01 for 12.34 EUR followed by exactly one balance assertion dated
2024-08-02 for 100.00 EUR — as the claim states.  The claim still fails on
the code as shipped: `RevolutImporter.__init__` passes `empty_date=""` to
`FromDate`, whose generated constructor rejects that keyword, so constructing
the importer raises `TypeError` before `extract` can ever run (see
`revolutCfg` and the empty-date claim). -/
theorem revolut_scenario_eval :
    extract (revolutCfg "Assets:Revolut:EUR" "Expenses:Revolut:Fee") "statement.csv" []
        [revolutScenarioRow]
      = Except.ok
        [Entry.txn ⟨"statement.csv", 0⟩ ⟨2024, 8, 1⟩ none (some "topup by card".toList)
           [⟨"Assets:Revolut:EUR", ⟨mkRat 1234 100, "EUR"⟩⟩],
         Entry.balance ⟨"statement.csv", 0⟩ ⟨2024, 8, 2⟩ "Assets:Revolut:EUR"
           ⟨100, "EUR"⟩] := by
  decide

/-- C9: the claim says all three payee/narration variants apply the pipeline
raw lookup, null-guard, `clean_text`, `reduce_whitespace`,
`shorten_text(max_length)` per field.  Only `FromPayeeNarration` does (first
conjunct: a `None` payee is null-guarded to the empty string and the
narration is cleaned, whitespace-reduced and shortened to 5 characters).
`FromPayee` passes its maximum length to `reduce_whitespace` as a spurious
second positional argument, so every call past the key check raises
`TypeError` (second conjunct), and `FromNarration` has no null-guard, so a
`None` cell raises instead of being treated as empty (third conjunct). -/
theorem payee_narration_variants_eval :
    FromPayeeNarration "P" "N" (-1) 5 [("P", none), ("N", some "  hello,  WORLD  extra ")]
      = Except.ok (some "".toList, some "hello...".toList)
    ∧ FromPayee "P" 10 [("P", some "hello world")]
      = Except.error "TypeError: reduce_whitespace() takes 1 positional argument but 2 were given"
    ∧ FromNarration "N" 5 [("N", none)]
      = Except.error "TypeError: expected a str cell, got None" := by
  refine ⟨by decide, by decide, by decide⟩

/-- C10: in `BankingImporter.extract` the payee/narration, root-amount and
transaction-type descriptors are invoked on each row before the
`if not date: continue` check, so a row whose date is absent is skipped
(contributing nothing) only when those three extractions succeed, and a
failure of any of them on such a row aborts the whole call with that error. -/
theorem extract_descriptor_order_before_skip (cfg : ImporterCfg) (fp : String)
    (ex : List Entry) (row : Row) (hd : cfg.get_date row = Except.ok none) :
    (∀ msg, cfg.get_payee_narration row = Except.error msg →
        extract cfg fp ex [row] = Except.error msg)
    ∧ (∀ pn msg, cfg.get_payee_narration row = Except.ok pn →
        cfg.get_root_amount row = Except.error msg →
        extract cfg fp ex [row] = Except.error msg)
    ∧ (∀ pn a msg, cfg.get_payee_narration row = Except.ok pn →
        cfg.get_root_amount row = Except.ok a →
        cfg.get_transaction_type row = Except.error msg →
        extract cfg fp ex [row] = Except.error msg)
    ∧ (∀ pn a t, cfg.get_payee_narration row = Except.ok pn →
        cfg.get_root_amount row = Except.ok a →
        cfg.get_transaction_type row = Except.ok t →
        extract cfg fp ex [row] = Except.ok []) := by
  refine ⟨?_, ?_, ?_, ?_⟩
  · intro msg h1
    simp [extract, extractGo, extractRow, hd, h1, exbind_ok, exbind_error]
  · intro pn msg h1 h2
    simp [extract, extractGo, extractRow, hd, h1, h2, exbind_ok, exbind_error]
  · intro pn a msg h1 h2 h3
    simp [extract, extractGo, extractRow, hd, h1, h2, h3, exbind_ok, exbind_error]
  · intro pn a t h1 h2 h3
    simp [extract, extractGo, extractRow, hd, h1, h2, h3, exbind_ok, exbind_error,
      List.isEmpty]

theorem extract_descriptor_order_before_skip_witness :
    absentDateCfg.get_date [] = Except.ok none
    ∧ extract absentDateCfg "f.csv" [] [[]] = Except.ok [] :=
  ⟨rfl,
    (extract_descriptor_order_before_skip absentDateCfg "f.csv" [] [] rfl).2.2.2
      (none, none) ⟨1, "EUR"⟩ TransactionType.transfer rfl rfl rfl⟩

theorem extractRow_ok_char (cfg : ImporterCfg) (fp : String) (i : Nat) (row : Row)
    (st st' : ExtractState) (h : extractRow cfg fp i row st = Except.ok st') :
    st'.entries = st.entries ++ (specTxnOfRow cfg fp i row).toList
    ∧ st'.balances = (match specCandOfRow cfg fp i row with
        | some (c, e) => addBalance st.balances c e
        | none => st.balances) := by
  rw [extractRow] at h
  cases hd : cfg.get_date row with
  | error e => simp only [hd] at h; exact Except.noConfusion h
  | ok date? =>
  simp only [hd] at h
  cases hpn : cfg.get_payee_narration row with
  | error e => simp only [hpn] at h; exact Except.noConfusion h
  | ok pn =>
  simp only [hpn] at h
  cases ha : cfg.get_root_amount row with
  | error e => simp only [ha] at h; exact Except.noConfusion h
  | ok amount =>
  simp only [ha] at h
  cases ht : cfg.get_transaction_type row with
  | error e => simp only [ht] at h; exact Except.noConfusion h
  | ok tt =>
  simp only [ht] at h
  cases date? with
  | none =>
      cases h
      constructor
      · simp [specTxnOfRow, hd, hpn, ha, ht]
      · simp [specCandOfRow, specTxnOfRow, hd, hpn, ha, ht]
  | some date =>
  simp only [] at h
  cases hf : extractFeeStep cfg row with
  | error e => simp only [hf] at h; exact Except.noConfusion h
  | ok u =>
  cases u
  simp only [hf] at h
  cases hb : cfg.get_balance with
  | none =>
      simp only [hb] at h
      cases h
      constructor
      · simp [specTxnOfRow, hd, hpn, ha, ht]
      · simp [specCandOfRow, specTxnOfRow, hd, hpn, ha, ht, hb]
  | some get_balance =>
  simp only [hb] at h
  cases hbal : get_balance row with
  | error e => simp only [hbal] at h; exact Except.noConfusion h
  | ok balance =>
  simp only [hbal] at h
  by_cases hz : balance.number = 0
  · rw [if_neg (fun hne => hne hz)] at h
    cases h
    constructor
    · simp [specTxnOfRow, hd, hpn, ha, ht]
    · simp [specCandOfRow, specTxnOfRow, hd, hpn, ha, ht, hb, hbal, hz]
  · rw [if_pos hz] at h
    cases hcur : currencyByName balance.currency with
    | none => simp only [hcur] at h; exact Except.noConfusion h
    | some cur =>
    simp only [hcur] at h
    cases h
    constructor
    · simp [specTxnOfRow, hd, hpn, ha, ht]
    · simp [specCandOfRow, specTxnOfRow, hd, hpn, ha, ht, hb, hbal, hcur, hz]

theorem addBalance_groupOf (hist : List (Currency × Entry)) (c : Currency) (e : Entry) :
    addBalance (groupOf hist) c e = groupOf (hist ++ [(c, e)]) := by
  have H : ∀ (n : Nat) (hist : List (Currency × Entry)), hist.length ≤ n →
      ∀ c e, addBalance (groupOf hist) c e = groupOf (hist ++ [(c, e)]) := by
    intro n
    induction n with
    | zero =>
        intro hist hl c e
        have h0 : hist = [] := List.length_eq_zero.mp (Nat.le_zero.mp hl)
        subst h0
        rw [groupOf, List.nil_append, addBalance, groupOf]
        simp [groupOf]
    | succ n ih =>
        intro hist hl c e
        match hist with
        | [] =>
            rw [groupOf, List.nil_append, addBalance, groupOf]
            simp [groupOf]
        | (c0, e0) :: t =>
            rw [groupOf, List.cons_append, groupOf]
            by_cases hc : c0 = c
            · subst hc
              rw [addBalance, if_pos rfl]
              congr 1
              · rw [List.filter_append]
                simp
              · congr 1
                rw [List.filter_append]
                simp
            · rw [addBalance, if_neg hc]
              congr 1
              · rw [List.filter_append]
                simp [Ne.symm hc]
              · rw [List.filter_append]
                have hft : ((t.filter (fun p => p.1 ≠ c0)).length ≤ n) := by
                  have h1 := List.length_filter_le (fun p => p.1 ≠ c0) t
                  have h2 : t.length + 1 ≤ n + 1 := by simpa using hl
                  omega
                have hsing : List.filter (fun p => decide (p.1 ≠ c0)) [(c, e)] = [(c, e)] := by
                  simp [Ne.symm hc]
                rw [hsing]
                exact ih (t.filter (fun p => p.1 ≠ c0)) hft c e
  exact H hist.length hist (Nat.le_refl _) c e

theorem firstSeen_filter (l : List Currency) (c : Currency) :
    firstSeen (l.filter (fun x => x ≠ c)) = (firstSeen l).filter (fun x => x ≠ c) := by
  induction l with
  | nil => rfl
  | cons a t ih =>
      by_cases hac : a = c
      · subst hac
        simp only [firstSeen, List.filter_cons]
        rw [if_neg (by simp)]
        rw [ih, List.filter_filter]
        simp
      · simp only [firstSeen, List.filter_cons]
        rw [if_pos (by simp [hac])]
        rw [firstSeen, ih, List.filter_filter, List.filter_filter]
        rw [if_pos (by simp [hac])]
        congr 1
        apply List.filter_congr
        intro x _
        rw [Bool.and_comm]

theorem lastBalances_groupOf (cands : List (Currency × Entry)) :
    lastBalances (groupOf cands) = specBalances cands := by
  have H : ∀ (n : Nat) (cands : List (Currency × Entry)), cands.length ≤ n →
      lastBalances (groupOf cands) = specBalances cands := by
    intro n
    induction n with
    | zero =>
        intro cands hl
        have h0 : cands = [] := List.length_eq_zero.mp (Nat.le_zero.mp hl)
        subst h0
        rw [groupOf]
        rfl
    | succ n ih =>
        intro cands hl
        match cands with
        | [] => rw [groupOf]; rfl
        | (c, e) :: rest =>
            rw [groupOf]
            -- left side: head group plus grouped remainder
            rw [lastBalances, List.filterMap_cons]
            -- the head group is nonempty, so its getLast? is some
            obtain ⟨y, hy⟩ : ∃ y, (e :: (rest.filter (fun p => p.1 = c)).map Prod.snd).getLast?
                = some y :=
              ⟨_, List.getLast?_eq_getLast _ (by simp)⟩
            rw [hy]
            dsimp only
            -- right side
            rw [specBalances]
            have hmapfst : ((c, e) :: rest).map Prod.fst = c :: rest.map Prod.fst := by simp
            rw [hmapfst, firstSeen, List.filterMap_cons]
            have hheadfilter : ((c, e) :: rest).filter (fun p => p.1 = c)
                = (c, e) :: rest.filter (fun p => p.1 = c) := by
              simp [List.filter_cons]
            have hheadlast : ((((c, e) :: rest).filter (fun p => p.1 = c)).getLast?).map Prod.snd
                = some y := by
              rw [hheadfilter, ← List.getLast?_map]
              simpa using hy
            rw [hheadlast]
            dsimp only
            congr 1
            -- tails
            have hlen : (rest.filter (fun p => p.1 ≠ c)).length ≤ n := by
              have h1 := List.length_filter_le (fun p => p.1 ≠ c) rest
              have h2 : rest.length + 1 ≤ n + 1 := by simpa using hl
              omega
            have ihx := ih (rest.filter (fun p => p.1 ≠ c)) hlen
            rw [lastBalances] at ihx
            rw [ihx]
            rw [specBalances]
            have hfst : (rest.filter (fun p => p.1 ≠ c)).map Prod.fst
                = (rest.map Prod.fst).filter (fun x => x ≠ c) := by
              rw [List.filter_map Prod.fst rest]
              rfl
            rw [hfst, firstSeen_filter]
            apply List.filterMap_congr
            intro c' hc'
            have hne : c' ≠ c := by
              have := List.of_mem_filter hc'
              simpa using this
            have hstep1 : ((c, e) :: rest).filter (fun p => p.1 = c')
                = rest.filter (fun p => p.1 = c') := by
              simp [List.filter_cons, Ne.symm hne]
            have hstep2 : (rest.filter (fun p => p.1 ≠ c)).filter (fun p => p.1 = c')
                = rest.filter (fun p => p.1 = c') := by
              rw [List.filter_filter]
              apply List.filter_congr
              intro p _
              by_cases hp : p.1 = c'
              · simp [hp, hne]
              · simp [hp]
            rw [hstep1, hstep2]
  exact H cands.length cands (Nat.le_refl _)

theorem extractGo_char (cfg : ImporterCfg) (fp : String) :
    ∀ (rows : List Row) (i : Nat) (st st' : ExtractState),
      extractGo cfg fp i rows st = Except.ok st' →
      ∀ hist, st.balances = groupOf hist →
        st'.entries = st.entries ++ specTxns cfg fp i rows
        ∧ st'.balances = groupOf (hist ++ specCands cfg fp i rows) := by
  intro rows
  induction rows with
  | nil =>
      intro i st st' h hist hb
      rw [extractGo] at h
      cases h
      rw [specTxns, specCands]
      simp [hb]
  | cons row rest ih =>
      intro i st st' h hist hb
      rw [extractGo] at h
      cases hr : extractRow cfg fp i row st with
      | error e =>
          rw [hr] at h
          exact Except.noConfusion h
      | ok st1 =>
          rw [hr] at h
          simp only [exbind_ok] at h
          obtain ⟨he, hbja⟩ := extractRow_ok_char cfg fp i row st st1 hr
          cases hc : specCandOfRow cfg fp i row with
          | none =>
              rw [hc] at hbja
              dsimp only at hbja
              have hx := ih (i + 1) st1 st' h hist (by rw [hbja, hb])
              constructor
              · rw [hx.1, he, specTxns, List.append_assoc]
              · rw [hx.2, specCands, hc]
                simp
          | some ce =>
              obtain ⟨c, e⟩ := ce
              rw [hc] at hbja
              dsimp only at hbja
              have hb1 : st1.balances = groupOf (hist ++ [(c, e)]) := by
                rw [hbja, hb, addBalance_groupOf]
              have hx := ih (i + 1) st1 st' h (hist ++ [(c, e)]) hb1
              constructor
              · rw [hx.1, he, specTxns, List.append_assoc]
              · rw [hx.2, specCands, hc]
                simp [List.append_assoc]

/-- C1: whenever `extract` succeeds, a file whose rows produce no transaction
yields the empty list (no balance assertions), and a file producing at least
one transaction yields exactly the per-row transactions followed by, for each
currency that accumulated balance candidates (in order of first appearance),
exactly one balance assertion — the last accumulated candidate in row order,
dated one day after its row's extracted date (`specCandOfRow`; a row
accumulates a candidate exactly when its extracted balance amount is truthy,
i.e. nonzero, since `Amount.__bool__` is `number != ZERO`). -/
theorem extract_balances_spec (cfg : ImporterCfg) (fp : String) (ex : List Entry)
    (rows : List Row) (out : List Entry) (h : extract cfg fp ex rows = Except.ok out) :
    (specTxns cfg fp 0 rows = [] → out = [])
    ∧ (specTxns cfg fp 0 rows ≠ [] →
        out = specTxns cfg fp 0 rows ++ specBalances (specCands cfg fp 0 rows)) := by
  rw [extract] at h
  cases hg : extractGo cfg fp 0 rows ⟨[], []⟩ with
  | error e =>
      rw [hg] at h
      exact Except.noConfusion h
  | ok st =>
      rw [hg] at h
      simp only [exbind_ok] at h
      obtain ⟨he, hbal⟩ := extractGo_char cfg fp rows 0 ⟨[], []⟩ st hg [] (by rw [groupOf])
      simp only [List.nil_append] at he hbal
      by_cases hempty : st.entries.isEmpty
      · rw [if_pos hempty] at h
        have hte : specTxns cfg fp 0 rows = [] := by
          rw [← he]
          exact List.isEmpty_iff.mp hempty
        constructor
        · intro _
          exact (Except.ok.inj h).symm
        · intro hne
          exact absurd hte hne
      · rw [if_neg hempty] at h
        have hne : specTxns cfg fp 0 rows ≠ [] := by
          intro h0
          rw [← he] at h0
          exact hempty (List.isEmpty_iff.mpr h0)
        constructor
        · intro h0
          exact absurd h0 hne
        · intro _
          rw [← (Except.ok.inj h), he, hbal, lastBalances_groupOf]

theorem specTxnOfRow_shape (cfg : ImporterCfg) (fp : String) (i : Nat) (row : Row) (e : Entry)
    (h : specTxnOfRow cfg fp i row = some e) :
    ∃ d pn a, e = Entry.txn ⟨fp, i⟩ d (Prod.fst pn) (Prod.snd pn) [⟨cfg.root_account, a⟩] := by
  unfold specTxnOfRow at h
  split at h
  · cases h
    exact ⟨_, _, _, rfl⟩
  · exact Option.noConfusion h

theorem specCandOfRow_shape (cfg : ImporterCfg) (fp : String) (i : Nat) (row : Row)
    (c : Currency) (e : Entry) (h : specCandOfRow cfg fp i row = some (c, e)) :
    ∃ m d b, e = Entry.balance m d cfg.root_account b := by
  unfold specCandOfRow at h
  split at h
  · split at h
    · exact Option.noConfusion h
    · split at h
      · split at h
        · split at h
          · cases h
            exact ⟨_, _, _, rfl⟩
          · exact Option.noConfusion h
        · exact Option.noConfusion h
      · exact Option.noConfusion h
  · exact Option.noConfusion h

theorem mem_specTxns_shape (cfg : ImporterCfg) (fp : String) :
    ∀ (rows : List Row) (i : Nat) (e : Entry), e ∈ specTxns cfg fp i rows →
      ∃ m d pn a,
        e = Entry.txn m d (Prod.fst pn) (Prod.snd pn) [⟨cfg.root_account, a⟩] := by
  intro rows
  induction rows with
  | nil =>
      intro i e h
      rw [specTxns] at h
      exact absurd h (List.not_mem_nil e)
  | cons row rest ih =>
      intro i e h
      rw [specTxns] at h
      rcases List.mem_append.mp h with hl | hr
      · have hsome : specTxnOfRow cfg fp i row = some e := by
          cases ho : specTxnOfRow cfg fp i row with
          | none => rw [ho] at hl; exact absurd hl (List.not_mem_nil e)
          | some x =>
              rw [ho] at hl
              simp only [Option.toList_some, List.mem_singleton] at hl
              rw [hl]
        obtain ⟨d, pn, a, he⟩ := specTxnOfRow_shape cfg fp i row e hsome
        exact ⟨⟨fp, i⟩, d, pn, a, he⟩
      · exact ih (i + 1) e hr

theorem mem_specCands_shape (cfg : ImporterCfg) (fp : String) :
    ∀ (rows : List Row) (i : Nat) (c : Currency) (e : Entry),
      (c, e) ∈ specCands cfg fp i rows →
      ∃ m d b, e = Entry.balance m d cfg.root_account b := by
  intro rows
  induction rows with
  | nil =>
      intro i c e h
      rw [specCands] at h
      exact absurd h (List.not_mem_nil (c, e))
  | cons row rest ih =>
      intro i c e h
      rw [specCands] at h
      rcases List.mem_append.mp h with hl | hr
      · have hsome : specCandOfRow cfg fp i row = some (c, e) := by
          cases ho : specCandOfRow cfg fp i row with
          | none => rw [ho] at hl; exact absurd hl (List.not_mem_nil (c, e))
          | some x =>
              rw [ho] at hl
              simp only [Option.toList_some, List.mem_singleton] at hl
              rw [hl]
        exact specCandOfRow_shape cfg fp i row c e hsome
      · exact ih (i + 1) c e hr

theorem mem_specBalances (cands : List (Currency × Entry)) (e : Entry)
    (h : e ∈ specBalances cands) : ∃ c, (c, e) ∈ cands := by
  rw [specBalances] at h
  rw [List.mem_filterMap] at h
  obtain ⟨c, _, he⟩ := h
  cases hl : (cands.filter (fun p => p.1 = c)).getLast? with
  | none => rw [hl] at he; exact Option.noConfusion he
  | some p =>
      rw [hl] at he
      have hpm : p ∈ cands.filter (fun p => p.1 = c) := List.mem_of_mem_getLast? hl
      have hpc : p ∈ cands := List.mem_of_mem_filter hpm
      have hp1 : p.1 = c := by
        have := List.of_mem_filter hpm
        simpa using this
      have hp2 : p.2 = e := by
        simpa using he
      refine ⟨c, ?_⟩
      have : p = (c, e) := Prod.ext hp1 hp2
      rw [← this]
      exact hpc

/-- C2: every transaction emitted by a successful `extract` carries exactly
one posting — the root account at the extracted amount — even when a fee
descriptor and a nonempty fee account are configured; and the fee amount is
indeed computed in the row loop: with both configured, a failing fee
extraction aborts the row with that error, even though the fee posting would
never have been attached. -/
theorem extract_single_posting :
    (∀ (cfg : ImporterCfg) (fp : String) (ex : List Entry) (rows : List Row) (out : List Entry),
        extract cfg fp ex rows = Except.ok out →
        ∀ e ∈ out, ∀ m d p nr ps, e = Entry.txn m d p nr ps →
          ∃ a, ps = [⟨cfg.root_account, a⟩])
    ∧ (∀ (cfg : ImporterCfg) (fp : String) (i : Nat) (row : Row) (st : ExtractState)
        (gf : Row → Except String Amount) (fa : String) (msg : String)
        (d : Date) (pn : Option (List Char) × Option (List Char)) (a : Amount)
        (t : TransactionType),
        cfg.get_fee_amount = some gf → cfg.fee_account = some fa → fa ≠ "" →
        cfg.get_date row = Except.ok (some d) →
        cfg.get_payee_narration row = Except.ok pn →
        cfg.get_root_amount row = Except.ok a →
        cfg.get_transaction_type row = Except.ok t →
        gf row = Except.error msg →
        extractRow cfg fp i row st = Except.error msg) := by
  constructor
  · intro cfg fp ex rows out h e he m d p nr ps hee
    rw [extract] at h
    cases hg : extractGo cfg fp 0 rows ⟨[], []⟩ with
    | error er =>
        rw [hg] at h
        exact Except.noConfusion h
    | ok st =>
        rw [hg] at h
        simp only [exbind_ok] at h
        obtain ⟨hent, hbal⟩ := extractGo_char cfg fp rows 0 ⟨[], []⟩ st hg [] (by rw [groupOf])
        simp only [List.nil_append] at hent hbal
        by_cases hempty : st.entries.isEmpty
        · rw [if_pos hempty] at h
          rw [← Except.ok.inj h] at he
          exact absurd he (List.not_mem_nil e)
        · rw [if_neg hempty] at h
          rw [← Except.ok.inj h] at he
          rcases List.mem_append.mp he with hl | hr
          · rw [hent] at hl
            obtain ⟨m', d', pn', a', he'⟩ := mem_specTxns_shape cfg fp rows 0 e hl
            rw [hee] at he'
            cases he'
            exact ⟨a', rfl⟩
          · rw [hbal, lastBalances_groupOf] at hr
            obtain ⟨c, hc⟩ := mem_specBalances _ e hr
            obtain ⟨m', d', b', he'⟩ := mem_specCands_shape cfg fp rows 0 c e hc
            rw [hee] at he'
            exact Entry.noConfusion he'
  · intro cfg fp i row st gf fa msg d pn a t h1 h2 h3 h4 h5 h6 h7 h8
    rw [extractRow]
    simp only [h4, h5, h6, h7]
    rw [extractFeeStep]
    simp only [h1, h2]
    rw [if_pos h3, h8]

theorem extract_balances_spec_witness :
    specTxns (revolutCfg "Assets:Revolut:EUR" "Expenses:Revolut:Fee") "statement.csv" 0
        [revolutScenarioRow] ≠ []
    ∧ [Entry.txn ⟨"statement.csv", 0⟩ ⟨2024, 8, 1⟩ none (some "topup by card".toList)
          [⟨"Assets:Revolut:EUR", ⟨mkRat 1234 100, "EUR"⟩⟩],
        Entry.balance ⟨"statement.csv", 0⟩ ⟨2024, 8, 2⟩ "Assets:Revolut:EUR" ⟨100, "EUR"⟩]
      = specTxns (revolutCfg "Assets:Revolut:EUR" "Expenses:Revolut:Fee") "statement.csv" 0
            [revolutScenarioRow]
          ++ specBalances (specCands (revolutCfg "Assets:Revolut:EUR" "Expenses:Revolut:Fee")
            "statement.csv" 0 [revolutScenarioRow]) :=
  ⟨by decide,
    (extract_balances_spec (revolutCfg "Assets:Revolut:EUR" "Expenses:Revolut:Fee")
      "statement.csv" [] [revolutScenarioRow]
      [Entry.txn ⟨"statement.csv", 0⟩ ⟨2024, 8, 1⟩ none (some "topup by card".toList)
          [⟨"Assets:Revolut:EUR", ⟨mkRat 1234 100, "EUR"⟩⟩],
        Entry.balance ⟨"statement.csv", 0⟩ ⟨2024, 8, 2⟩ "Assets:Revolut:EUR" ⟨100, "EUR"⟩]
      (by decide)).2 (by decide)⟩

theorem extract_single_posting_witness :
    extractRow feeFailCfg "f.csv" 0 [] ⟨[], []⟩ = Except.error "fee descriptor failed" :=
  extract_single_posting.2 feeFailCfg "f.csv" 0 [] ⟨[], []⟩
    (fun _ => Except.error "fee descriptor failed") "Expenses:Fee" "fee descriptor failed"
    ⟨2024, 8, 1⟩ (none, none) ⟨1, "EUR"⟩ TransactionType.transfer
    rfl rfl (by decide) rfl rfl rfl rfl rfl

theorem isPySpace_of_isDigit (c : Char) (h : c.isDigit = true) : isPySpace c = false := by
  by_contra hx
  have hx' : isPySpace c = true := by
    revert hx
    cases isPySpace c <;> simp
  simp only [isPySpace, Bool.or_eq_true, decide_eq_true_eq] at hx'
  rcases hx' with ((((h1 | h1) | h1) | h1) | h1) | h1 <;>
    (subst h1; exact absurd h (by decide))

theorem ne_sign_of_isDigit (c : Char) (h : c.isDigit = true) : c ≠ '+' ∧ c ≠ '-' := by
  constructor <;> (intro h1; subst h1; exact absurd h (by decide))

theorem filter_nondigit_nil (l : List Char) (h : ∀ x ∈ l, x.isDigit = true) :
    l.filter (fun c => !c.isDigit) = [] := by
  rw [List.filter_eq_nil]
  intro a ha
  simp [h a ha]

theorem takeWhile_all_true {p : Char → Bool} :
    ∀ l : List Char, (∀ a ∈ l, p a = true) → l.takeWhile p = l := by
  intro l h
  induction l with
  | nil => rfl
  | cons a t ih =>
      rw [List.takeWhile_cons, if_pos (h a (List.mem_cons_self a t))]
      rw [ih (fun x hx => h x (List.mem_cons_of_mem a hx))]

theorem dropWhile_all_true {p : Char → Bool} :
    ∀ l : List Char, (∀ a ∈ l, p a = true) → l.dropWhile p = [] := by
  intro l h
  induction l with
  | nil => rfl
  | cons a t ih =>
      rw [List.dropWhile_cons, if_pos (h a (List.mem_cons_self a t))]
      exact ih (fun x hx => h x (List.mem_cons_of_mem a hx))

theorem takeWhile_stop {p : Char → Bool} (l1 : List Char) (x : Char) (l2 : List Char)
    (h1 : ∀ a ∈ l1, p a = true) (hx : p x = false) :
    (l1 ++ x :: l2).takeWhile p = l1 := by
  induction l1 with
  | nil => simp [List.takeWhile_cons, hx]
  | cons a t ih =>
      rw [List.cons_append, List.takeWhile_cons, if_pos (h1 a (List.mem_cons_self a t))]
      rw [ih (fun y hy => h1 y (List.mem_cons_of_mem a hy))]

theorem dropWhile_stop {p : Char → Bool} (l1 : List Char) (x : Char) (l2 : List Char)
    (h1 : ∀ a ∈ l1, p a = true) (hx : p x = false) :
    (l1 ++ x :: l2).dropWhile p = x :: l2 := by
  induction l1 with
  | nil => simp [List.dropWhile_cons, hx]
  | cons a t ih =>
      rw [List.cons_append, List.dropWhile_cons, if_pos (h1 a (List.mem_cons_self a t))]
      exact ih (fun y hy => h1 y (List.mem_cons_of_mem a hy))

theorem map_rewrite_id (l : List Char) (c : Char) (h : ∀ x ∈ l, x.isDigit = true)
    (hc : c.isDigit = false) : l.map (fun x => if x = c then '.' else x) = l := by
  induction l with
  | nil => rfl
  | cons a t ih =>
      rw [List.map_cons]
      have ha : a ≠ c := by
        intro h1
        rw [h1] at h
        rw [h c (List.mem_cons_self c t)] at hc
        exact Bool.noConfusion hc
      rw [if_neg ha, ih (fun x hx => h x (List.mem_cons_of_mem a hx))]

theorem contains_dot_false (l : List Char) (h : ∀ x ∈ l, x.isDigit = true) :
    l.contains '.' = false := by
  by_contra hx
  have hx' : l.contains '.' = true := by
    revert hx
    cases l.contains '.' <;> simp
  have hmem : ('.' : Char) ∈ l := by
    simpa using hx'
  exact absurd (h '.' hmem) (by decide)

theorem filter_ne_id (l : List Char) (c : Char) (h : ∀ x ∈ l, x.isDigit = true)
    (hc : c.isDigit = false) : l.filter (fun x => x ≠ c) = l := by
  rw [List.filter_eq_self]
  intro a ha
  simp only [ne_eq, decide_eq_true_eq]
  intro h1
  subst h1
  rw [h a ha] at hc
  exact Bool.noConfusion hc

theorem pyDecimal_canonical (s d1 d2 : List Char)
    (hs : s = [] ∨ s = ['+'] ∨ s = ['-'])
    (h1 : ∀ x ∈ d1, x.isDigit = true) (h2 : ∀ x ∈ d2, x.isDigit = true)
    (hne : ¬(d1 = [] ∧ d2 = [])) :
    pyDecimal (s ++ (d1 ++ '.' :: d2))
      = Except.ok (mkRat ((if s = ['-'] then (-1 : ℤ) else 1)
          * ((digitsVal d1 : ℤ) * 10 ^ d2.length + digitsVal d2)) (10 ^ d2.length)) := by
  have hd1dot : ∀ a ∈ d1, (fun c => decide (c ≠ '.')) a = true := by
    intro a ha
    simp only [ne_eq, decide_eq_true_eq]
    intro h0
    subst h0
    exact absurd (h1 _ ha) (by decide)
  have hdot : (fun c => decide (c ≠ '.')) '.' = false := by decide
  have htake : (d1 ++ '.' :: d2).takeWhile (fun c => decide (c ≠ '.')) = d1 :=
    takeWhile_stop d1 '.' d2 hd1dot hdot
  have hdrop : (d1 ++ '.' :: d2).dropWhile (fun c => decide (c ≠ '.')) = '.' :: d2 :=
    dropWhile_stop d1 '.' d2 hd1dot hdot
  have hall1 : d1.all Char.isDigit = true := by
    rw [List.all_eq_true]
    intro a ha
    simpa using h1 a ha
  have hall2 : d2.all Char.isDigit = true := by
    rw [List.all_eq_true]
    intro a ha
    simpa using h2 a ha
  have hcont : d2.contains '.' = false := contains_dot_false d2 h2
  have hnotin : ('.' : Char) ∉ d2 := by simpa using hcont
  have himp : d1 = [] → d2 ≠ [] := fun h0 h02 => hne ⟨h0, h02⟩
  simp only [ne_eq, decide_not] at htake hdrop
  rcases hs with rfl | rfl | rfl
  · -- no sign
    rcases Decidable.em (d1 = []) with he1 | he1
    · subst he1
      have hd2ne : d2 ≠ [] := fun h0 => hne ⟨rfl, h0⟩
      rw [List.nil_append, pyDecimal.eq_def]
      simp only [List.nil_append] at htake hdrop
      simp [htake, hdrop, hall2, hnotin, hd2ne, digitsVal]
    · obtain ⟨c0, t0, rfl⟩ := List.exists_cons_of_ne_nil he1
      have hc0 : c0.isDigit = true := h1 c0 (List.mem_cons_self c0 t0)
      obtain ⟨hp, hm⟩ := ne_sign_of_isDigit c0 hc0
      rw [List.nil_append, pyDecimal.eq_def]
      simp only [List.cons_append] at htake hdrop
      simp [htake, hdrop, hall1, hall2, hnotin, hp, hm, h1, h2]
  · -- sign plus
    rw [pyDecimal.eq_def]
    simp [htake, hdrop, hall1, hall2, hnotin, h1, h2]
    exact himp
  · -- sign minus
    rw [pyDecimal.eq_def]
    simp [htake, hdrop, hall1, hall2, hnotin, h1, h2]
    exact himp

theorem pyDecimal_int (s ds : List Char)
    (hs : s = [] ∨ s = ['+'] ∨ s = ['-'])
    (hd : ∀ x ∈ ds, x.isDigit = true) (hne : ds ≠ []) :
    pyDecimal (s ++ ds)
      = Except.ok (mkRat ((if s = ['-'] then (-1 : ℤ) else 1) * digitsVal ds) 1) := by
  have hdsdot : ∀ a ∈ ds, (fun c => decide (c ≠ '.')) a = true := by
    intro a ha
    simp only [ne_eq, decide_eq_true_eq]
    intro h0
    subst h0
    exact absurd (hd _ ha) (by decide)
  have htake : ds.takeWhile (fun c => decide (c ≠ '.')) = ds := takeWhile_all_true ds hdsdot
  have hdrop : ds.dropWhile (fun c => decide (c ≠ '.')) = [] := dropWhile_all_true ds hdsdot
  have hall : ds.all Char.isDigit = true := by
    rw [List.all_eq_true]
    intro a ha
    simpa using hd a ha
  simp only [ne_eq, decide_not] at htake hdrop
  rcases hs with rfl | rfl | rfl
  · obtain ⟨c0, t0, rfl⟩ := List.exists_cons_of_ne_nil hne
    have hc0 : c0.isDigit = true := hd c0 (List.mem_cons_self c0 t0)
    obtain ⟨hp, hm⟩ := ne_sign_of_isDigit c0 hc0
    rw [List.nil_append, pyDecimal.eq_def]
    simp [htake, hdrop, hall, hp, hm, hd, digitsVal]
  · rw [pyDecimal.eq_def]
    simp [htake, hdrop, hall, hne, hd, digitsVal]
  · rw [pyDecimal.eq_def]
    simp [htake, hdrop, hall, hne, hd, digitsVal]

theorem ctd_reduce (s body : List Char)
    (hs : s = [] ∨ s = ['+'] ∨ s = ['-'])
    (hne : body ≠ [])
    (hns : ∀ x ∈ body, isPySpace x = false)
    (hhead : ∀ c0 t0, body = c0 :: t0 → c0 ≠ '+' ∧ c0 ≠ '-') :
    convert_text_to_decimal (s ++ body)
      = (if (body.filter (fun c => !c.isDigit)).isEmpty then
          Except.error "UnboundLocalError: local variable 'number' referenced before assignment"
        else
          pyDecimal (s ++ ((body.filter (fun c => !c.isDigit)).dropLast.foldl
              (fun t sep => t.filter (fun c => c ≠ sep)) body).map
            (fun c => if c = (body.filter (fun c => !c.isDigit)).getLast! then '.' else c))) := by
  obtain ⟨c0, rest, rfl⟩ := List.exists_cons_of_ne_nil hne
  obtain ⟨hp, hm⟩ := hhead c0 rest rfl
  have hstrip : pyStrip (c0 :: rest) = c0 :: rest := pyStrip_eq_self _ hns
  rcases hs with rfl | rfl | rfl
  · rw [List.nil_append, convert_text_to_decimal.eq_def]
    simp [hstrip, hp, hm]
  · rw [convert_text_to_decimal.eq_def]
    have hstrip1 : pyStrip ('+' :: c0 :: rest) = '+' :: c0 :: rest := by
      apply pyStrip_eq_self
      intro x hx
      rcases List.mem_cons.mp hx with rfl | hx2
      · decide
      · exact hns x hx2
    simp [hstrip1, hstrip]
  · rw [convert_text_to_decimal.eq_def]
    have hstrip1 : pyStrip ('-' :: c0 :: rest) = '-' :: c0 :: rest := by
      apply pyStrip_eq_self
      intro x hx
      rcases List.mem_cons.mp hx with rfl | hx2
      · decide
      · exact hns x hx2
    simp [hstrip1, hstrip]

theorem ctd_no_sep (s ds : List Char)
    (hs : s = [] ∨ s = ['+'] ∨ s = ['-'])
    (hne : ds ≠ []) (hd : ∀ x ∈ ds, x.isDigit = true) :
    convert_text_to_decimal (s ++ ds)
      = Except.error "UnboundLocalError: local variable 'number' referenced before assignment" := by
  rw [ctd_reduce s ds hs hne
    (fun x hx => isPySpace_of_isDigit x (hd x hx))
    (fun c0 t0 h0 => ne_sign_of_isDigit c0 (hd c0 (h0 ▸ List.mem_cons_self c0 t0)))]
  rw [filter_nondigit_nil ds hd]
  simp

theorem ctd_single_sep (s d1 d2 : List Char) (c : Char)
    (hs : s = [] ∨ s = ['+'] ∨ s = ['-'])
    (h1 : ∀ x ∈ d1, x.isDigit = true) (h2 : ∀ x ∈ d2, x.isDigit = true)
    (hcd : c.isDigit = false) (hcs : isPySpace c = false)
    (hcp : c ≠ '+') (hcm : c ≠ '-') (hne : ¬(d1 = [] ∧ d2 = [])) :
    convert_text_to_decimal (s ++ (d1 ++ c :: d2))
      = Except.ok (mkRat ((if s = ['-'] then (-1 : ℤ) else 1)
          * ((digitsVal d1 : ℤ) * 10 ^ d2.length + digitsVal d2)) (10 ^ d2.length)) := by
  have hbodyne : d1 ++ c :: d2 ≠ [] := by
    intro h0
    rcases List.append_eq_nil.mp h0 with ⟨_, h02⟩
    exact List.noConfusion h02
  have hns : ∀ x ∈ d1 ++ c :: d2, isPySpace x = false := by
    intro x hx
    rcases List.mem_append.mp hx with hx1 | hx2
    · exact isPySpace_of_isDigit x (h1 x hx1)
    · rcases List.mem_cons.mp hx2 with rfl | hx3
      · exact hcs
      · exact isPySpace_of_isDigit x (h2 x hx3)
  have hhead : ∀ c0 t0, d1 ++ c :: d2 = c0 :: t0 → c0 ≠ '+' ∧ c0 ≠ '-' := by
    intro c0 t0 h0
    cases d1 with
    | nil =>
        rw [List.nil_append] at h0
        cases h0
        exact ⟨hcp, hcm⟩
    | cons a t =>
        rw [List.cons_append] at h0
        cases h0
        exact ne_sign_of_isDigit _ (h1 _ (List.mem_cons_self _ _))
  rw [ctd_reduce s (d1 ++ c :: d2) hs hbodyne hns hhead]
  have hsep : (d1 ++ c :: d2).filter (fun x => !x.isDigit) = [c] := by
    rw [List.filter_append, filter_nondigit_nil d1 h1, List.filter_cons]
    simp [hcd, filter_nondigit_nil d2 h2]
  rw [hsep]
  have hgl : [c].getLast! = c := rfl
  have hmap : (d1 ++ c :: d2).map (fun x => if x = c then '.' else x) = d1 ++ '.' :: d2 := by
    rw [List.map_append, map_rewrite_id d1 c h1 hcd, List.map_cons, if_pos rfl,
      map_rewrite_id d2 c h2 hcd]
  simp only [List.isEmpty_cons, Bool.false_eq_true, if_false, List.dropLast_single,
    List.foldl_nil, hgl, hmap]
  exact pyDecimal_canonical s d1 d2 hs h1 h2 hne

theorem ctd_grouped_sep (s d1 d2 d3 : List Char) (g c : Char)
    (hs : s = [] ∨ s = ['+'] ∨ s = ['-'])
    (h1 : ∀ x ∈ d1, x.isDigit = true) (h2 : ∀ x ∈ d2, x.isDigit = true)
    (h3 : ∀ x ∈ d3, x.isDigit = true)
    (hgd : g.isDigit = false) (hcd : c.isDigit = false)
    (hgs : isPySpace g = false) (hcs : isPySpace c = false)
    (hgp : g ≠ '+') (hgm : g ≠ '-') (hcp : c ≠ '+') (hcm : c ≠ '-')
    (hgc : g ≠ c)
    (hne : ¬(d1 ++ d2 = [] ∧ d3 = [])) :
    convert_text_to_decimal (s ++ (d1 ++ (g :: (d2 ++ c :: d3))))
      = Except.ok (mkRat ((if s = ['-'] then (-1 : ℤ) else 1)
          * ((digitsVal (d1 ++ d2) : ℤ) * 10 ^ d3.length + digitsVal d3))
          (10 ^ d3.length)) := by
  have hbodyne : d1 ++ (g :: (d2 ++ c :: d3)) ≠ [] := by
    intro h0
    rcases List.append_eq_nil.mp h0 with ⟨_, h02⟩
    exact List.noConfusion h02
  have hns : ∀ x ∈ d1 ++ (g :: (d2 ++ c :: d3)), isPySpace x = false := by
    intro x hx
    rcases List.mem_append.mp hx with hx1 | hx2
    · exact isPySpace_of_isDigit x (h1 x hx1)
    · rcases List.mem_cons.mp hx2 with rfl | hx3
      · exact hgs
      · rcases List.mem_append.mp hx3 with hx4 | hx5
        · exact isPySpace_of_isDigit x (h2 x hx4)
        · rcases List.mem_cons.mp hx5 with rfl | hx6
          · exact hcs
          · exact isPySpace_of_isDigit x (h3 x hx6)
  have hhead : ∀ c0 t0, d1 ++ (g :: (d2 ++ c :: d3)) = c0 :: t0 → c0 ≠ '+' ∧ c0 ≠ '-' := by
    intro c0 t0 h0
    cases d1 with
    | nil =>
        rw [List.nil_append] at h0
        cases h0
        exact ⟨hgp, hgm⟩
    | cons a t =>
        rw [List.cons_append] at h0
        cases h0
        exact ne_sign_of_isDigit _ (h1 _ (List.mem_cons_self _ _))
  rw [ctd_reduce s _ hs hbodyne hns hhead]
  have hsep : (d1 ++ (g :: (d2 ++ c :: d3))).filter (fun x => !x.isDigit) = [g, c] := by
    rw [List.filter_append, filter_nondigit_nil d1 h1, List.filter_cons, List.filter_append,
      filter_nondigit_nil d2 h2, List.filter_cons]
    simp [hgd, hcd, filter_nondigit_nil d3 h3]
  rw [hsep]
  have hfoldl : (d1 ++ (g :: (d2 ++ c :: d3))).filter (fun x => x ≠ g)
      = d1 ++ (d2 ++ c :: d3) := by
    rw [List.filter_append, filter_ne_id d1 g h1 hgd, List.filter_cons, List.filter_append,
      filter_ne_id d2 g h2 hgd, List.filter_cons, filter_ne_id d3 g h3 hgd]
    simp [Ne.symm hgc]
  have hmap : (d1 ++ (d2 ++ c :: d3)).map (fun x => if x = c then '.' else x)
      = d1 ++ (d2 ++ '.' :: d3) := by
    rw [List.map_append, List.map_append, map_rewrite_id d1 c h1 hcd,
      map_rewrite_id d2 c h2 hcd, List.map_cons, if_pos rfl, map_rewrite_id d3 c h3 hcd]
  have hgl : [g, c].getLast! = c := rfl
  have hdl : [g, c].dropLast = [g] := rfl
  simp only [List.isEmpty_cons, Bool.false_eq_true, if_false, hdl, List.foldl_cons,
    List.foldl_nil, hgl, hfoldl, hmap]
  have hassoc : d1 ++ (d2 ++ '.' :: d3) = (d1 ++ d2) ++ '.' :: d3 := by
    rw [List.append_assoc]
  rw [hassoc]
  exact pyDecimal_canonical s (d1 ++ d2) d3 hs
    (by
      intro x hx
      rcases List.mem_append.mp hx with hx1 | hx2
      · exact h1 x hx1
      · exact h2 x hx2)
    h3 hne

theorem ctd_repeated_sep (s d1 d2 d3 : List Char) (c : Char)
    (hs : s = [] ∨ s = ['+'] ∨ s = ['-'])
    (h1 : ∀ x ∈ d1, x.isDigit = true) (h2 : ∀ x ∈ d2, x.isDigit = true)
    (h3 : ∀ x ∈ d3, x.isDigit = true)
    (hcd : c.isDigit = false) (hcs : isPySpace c = false)
    (hcp : c ≠ '+') (hcm : c ≠ '-')
    (hne : d1 ++ (d2 ++ d3) ≠ []) :
    convert_text_to_decimal (s ++ (d1 ++ (c :: (d2 ++ c :: d3))))
      = Except.ok (mkRat ((if s = ['-'] then (-1 : ℤ) else 1)
          * digitsVal (d1 ++ (d2 ++ d3))) 1) := by
  have hbodyne : d1 ++ (c :: (d2 ++ c :: d3)) ≠ [] := by
    intro h0
    rcases List.append_eq_nil.mp h0 with ⟨_, h02⟩
    exact List.noConfusion h02
  have hns : ∀ x ∈ d1 ++ (c :: (d2 ++ c :: d3)), isPySpace x = false := by
    intro x hx
    rcases List.mem_append.mp hx with hx1 | hx2
    · exact isPySpace_of_isDigit x (h1 x hx1)
    · rcases List.mem_cons.mp hx2 with rfl | hx3
      · exact hcs
      · rcases List.mem_append.mp hx3 with hx4 | hx5
        · exact isPySpace_of_isDigit x (h2 x hx4)
        · rcases List.mem_cons.mp hx5 with rfl | hx6
          · exact hcs
          · exact isPySpace_of_isDigit x (h3 x hx6)
  have hhead : ∀ c0 t0, d1 ++ (c :: (d2 ++ c :: d3)) = c0 :: t0 → c0 ≠ '+' ∧ c0 ≠ '-' := by
    intro c0 t0 h0
    cases d1 with
    | nil =>
        rw [List.nil_append] at h0
        cases h0
        exact ⟨hcp, hcm⟩
    | cons a t =>
        rw [List.cons_append] at h0
        cases h0
        exact ne_sign_of_isDigit _ (h1 _ (List.mem_cons_self _ _))
  rw [ctd_reduce s _ hs hbodyne hns hhead]
  have hsep : (d1 ++ (c :: (d2 ++ c :: d3))).filter (fun x => !x.isDigit) = [c, c] := by
    rw [List.filter_append, filter_nondigit_nil d1 h1, List.filter_cons, List.filter_append,
      filter_nondigit_nil d2 h2, List.filter_cons]
    simp [hcd, filter_nondigit_nil d3 h3]
  rw [hsep]
  have hfoldl : (d1 ++ (c :: (d2 ++ c :: d3))).filter (fun x => x ≠ c)
      = d1 ++ (d2 ++ d3) := by
    rw [List.filter_append, filter_ne_id d1 c h1 hcd, List.filter_cons, List.filter_append,
      filter_ne_id d2 c h2 hcd, List.filter_cons, filter_ne_id d3 c h3 hcd]
    simp
  have hdigits : ∀ x ∈ d1 ++ (d2 ++ d3), x.isDigit = true := by
    intro x hx
    rcases List.mem_append.mp hx with hx1 | hx2
    · exact h1 x hx1
    · rcases List.mem_append.mp hx2 with hx3 | hx4
      · exact h2 x hx3
      · exact h3 x hx4
  have hmap : (d1 ++ (d2 ++ d3)).map (fun x => if x = c then '.' else x)
      = d1 ++ (d2 ++ d3) := map_rewrite_id _ c hdigits hcd
  have hgl : [c, c].getLast! = c := rfl
  have hdl : [c, c].dropLast = [c] := rfl
  simp only [List.isEmpty_cons, Bool.false_eq_true, if_false, hdl, List.foldl_cons,
    List.foldl_nil, hgl, hfoldl, hmap]
  exact pyDecimal_int s (d1 ++ (d2 ++ d3)) hs hdigits hne

/-- C5 (amended): `convert_text_to_decimal` trims whitespace (an all-space
string yields zero), captures a leading sign, and treats the remaining
non-digit characters as separators — but at the level of characters, not
occurrences: every occurrence of each separator character other than the last
separator character is stripped, and the remaining occurrences of the last
separator character become decimal points (so when the last separator
character also occurs earlier, all its occurrences are stripped and no
decimal point remains); moreover a trimmed nonempty string with no separator
at all (an optional sign followed by digits only) does not parse to its
value but fails with `UnboundLocalError`, because the local `number` is only
assigned inside the separator branch. -/
theorem convert_text_to_decimal_char_semantics :
    (∀ l : List Char, (∀ x ∈ l, isPySpace x = true) →
        convert_text_to_decimal l = Except.ok 0)
    ∧ (∀ s ds : List Char, (s = [] ∨ s = ['+'] ∨ s = ['-']) → ds ≠ [] →
        (∀ x ∈ ds, x.isDigit = true) →
        convert_text_to_decimal (s ++ ds)
          = Except.error "UnboundLocalError: local variable 'number' referenced before assignment")
    ∧ (∀ (s d1 d2 : List Char) (c : Char), (s = [] ∨ s = ['+'] ∨ s = ['-']) →
        (∀ x ∈ d1, x.isDigit = true) → (∀ x ∈ d2, x.isDigit = true) →
        c.isDigit = false → isPySpace c = false → c ≠ '+' → c ≠ '-' →
        ¬(d1 = [] ∧ d2 = []) →
        convert_text_to_decimal (s ++ (d1 ++ c :: d2))
          = Except.ok (mkRat ((if s = ['-'] then (-1 : ℤ) else 1)
              * ((digitsVal d1 : ℤ) * 10 ^ d2.length + digitsVal d2)) (10 ^ d2.length)))
    ∧ (∀ (s d1 d2 d3 : List Char) (g c : Char), (s = [] ∨ s = ['+'] ∨ s = ['-']) →
        (∀ x ∈ d1, x.isDigit = true) → (∀ x ∈ d2, x.isDigit = true) →
        (∀ x ∈ d3, x.isDigit = true) →
        g.isDigit = false → c.isDigit = false →
        isPySpace g = false → isPySpace c = false →
        g ≠ '+' → g ≠ '-' → c ≠ '+' → c ≠ '-' → g ≠ c →
        ¬(d1 ++ d2 = [] ∧ d3 = []) →
        convert_text_to_decimal (s ++ (d1 ++ (g :: (d2 ++ c :: d3))))
          = Except.ok (mkRat ((if s = ['-'] then (-1 : ℤ) else 1)
              * ((digitsVal (d1 ++ d2) : ℤ) * 10 ^ d3.length + digitsVal d3))
              (10 ^ d3.length)))
    ∧ (∀ (s d1 d2 d3 : List Char) (c : Char), (s = [] ∨ s = ['+'] ∨ s = ['-']) →
        (∀ x ∈ d1, x.isDigit = true) → (∀ x ∈ d2, x.isDigit = true) →
        (∀ x ∈ d3, x.isDigit = true) →
        c.isDigit = false → isPySpace c = false → c ≠ '+' → c ≠ '-' →
        d1 ++ (d2 ++ d3) ≠ [] →
        convert_text_to_decimal (s ++ (d1 ++ (c :: (d2 ++ c :: d3))))
          = Except.ok (mkRat ((if s = ['-'] then (-1 : ℤ) else 1)
              * digitsVal (d1 ++ (d2 ++ d3))) 1)) := by
  refine ⟨?_, ?_, ?_, ?_, ?_⟩
  · intro l h
    have h1 : l.dropWhile isPySpace = [] := dropWhile_all_true l h
    rw [convert_text_to_decimal.eq_def]
    simp [pyStrip, h1]
  · intro s ds hs hne hd
    exact ctd_no_sep s ds hs hne hd
  · intro s d1 d2 c hs h1 h2 hcd hcs hcp hcm hne
    exact ctd_single_sep s d1 d2 c hs h1 h2 hcd hcs hcp hcm hne
  · intro s d1 d2 d3 g c hs h1 h2 h3 hgd hcd hgs hcs hgp hgm hcp hcm hgc hne
    exact ctd_grouped_sep s d1 d2 d3 g c hs h1 h2 h3 hgd hcd hgs hcs hgp hgm hcp hcm hgc hne
  · intro s d1 d2 d3 c hs h1 h2 h3 hcd hcs hcp hcm hne
    exact ctd_repeated_sep s d1 d2 d3 c hs h1 h2 h3 hcd hcs hcp hcm hne

/-- C5 (counterexample): the claim predicts `"1.2.3"` parses to `12.3`
(all separator occurrences but the last stripped, the last one a decimal
point) and `"123"` to `123`; the code yields `123` for `"1.2.3"` (both dots
are occurrences of the same character, so the loop over `separators[:-1]`
strips them all) and raises `UnboundLocalError` on `"123"`. -/
theorem convert_text_to_decimal_claim_counterexample :
    convert_text_to_decimal "1.2.3".toList = Except.ok 123
    ∧ convert_text_to_decimal "1.2.3".toList ≠ Except.ok (mkRat 123 10)
    ∧ convert_text_to_decimal "123".toList
        = Except.error "UnboundLocalError: local variable 'number' referenced before assignment" :=
  ⟨by decide, by decide, by decide⟩

theorem convert_text_to_decimal_char_semantics_witness :
    convert_text_to_decimal (['-'] ++ ("1".toList ++ ',' :: "25".toList))
      = Except.ok (mkRat ((if (['-'] : List Char) = ['-'] then (-1 : ℤ) else 1)
          * ((digitsVal "1".toList : ℤ) * 10 ^ "25".toList.length + digitsVal "25".toList))
          (10 ^ "25".toList.length)) :=
  convert_text_to_decimal_char_semantics.2.2.1 ['-'] "1".toList "25".toList ','
    (Or.inr (Or.inr rfl)) (by decide) (by decide) (by decide) (by decide) (by decide) (by decide)
    (by decide)
